import Mathlib

/-! A shallow embedding of `mini3d.h`, the header of the mini3d software rasterizer.

The header's inline functions are translated one by one.  Conventions:

* `float` values are elements of a scalar type `α`; each definition asks only
  for the operations the C body uses (`+`, `-`, `*`, the literal `1`), so the
  definitions run on `ℚ` or `ℤ` and can be read over `ℝ` for the statements
  about exact arithmetic.
* `float32` is the C type `float` itself (IEEE 754 binary32, round to nearest,
  ties to even, every operation rounded to binary32), with its own `+`, `-`,
  `*`; instantiating `α` with it runs the same definitions in machine
  arithmetic.
* `int` values are `Int`; the conversion to `uint32_t` is reduction modulo
  `2 ^ 32`, written out in `to_uint32`.
* `uint32_t` pixel values are `Nat`.
* An output parameter (`vector_t* z`) becomes the function's result.
* `uint32_t** framebuffer` is a list of rows, each row a list of cells.  A store
  through `framebuffer[y][x]` that falls outside the rows that exist has no
  defined behaviour in C and is `none` here.  Rows are distinct objects and the
  three buffers of a device do not overlap.
-/

namespace Mini3d

/-! ## Data model -/

/-- Source: `typedef struct { float m[4][4]; } matrix_t;` -/
structure matrix_t (α : Type) where
  m : Fin 4 → Fin 4 → α

/-- Source: `typedef struct { float x, y, z, w; } vector_t;` -/
structure vector_t (α : Type) where
  x : α
  y : α
  z : α
  w : α
  deriving DecidableEq, Repr

/-- Source: `typedef vector_t point_t;` -/
abbrev point_t (α : Type) := vector_t α

/-- Source, lines 87-93, `transform_t`: the three stage matrices, the cached product and the screen size. -/
structure transform_t (α : Type) where
  world : matrix_t α
  view : matrix_t α
  projection : matrix_t α
  transform : matrix_t α
  w : α
  h : α

/-- Source, lines 144-158: `device_t`, field for field. -/
structure device_t (α : Type) where
  transform : transform_t α
  width : Int
  height : Int
  framebuffer : List (List Nat)
  zbuffer : List (List α)
  texture : List (List Nat)
  tex_width : Int
  tex_height : Int
  max_u : α
  max_v : α
  render_state : Int
  background : Nat
  foreground : Nat

/-! ## Machine integers -/

/-- Largest value of a C `int` (32 bits). -/
def INT_MAX : Int := 2147483647

/-- Smallest value of a C `int` (32 bits). -/
def INT_MIN : Int := -2147483648

/-- The values a C `int` can hold. -/
def is_int (v : Int) : Prop := INT_MIN ≤ v ∧ v ≤ INT_MAX

instance (v : Int) : Decidable (is_int v) := by
  unfold is_int; exact inferInstance

/-- The cast `(uint32_t)v`: reduction modulo `2 ^ 32`. -/
def to_uint32 (v : Int) : Nat := (v % 4294967296).toNat

/-! ## Framebuffer cells -/

/-- Read of `fb[y][x]`; `none` when the cell does not exist. -/
def fb_load (fb : List (List Nat)) (y x : Int) : Option Nat :=
  if 0 ≤ y ∧ 0 ≤ x then
    match fb[y.toNat]? with
    | some row => row[x.toNat]?
    | none => none
  else none

/-- Store `fb[y][x] = c`; `none` when the cell does not exist. -/
def fb_store (fb : List (List Nat)) (y x : Int) (c : Nat) : Option (List (List Nat)) :=
  if 0 ≤ y ∧ 0 ≤ x then
    match fb[y.toNat]? with
    | some row =>
      if x.toNat < row.length then some (fb.set y.toNat (row.set x.toNat c)) else none
    | none => none
  else none

/-- The framebuffer has `height` rows of `width` cells. -/
def fb_wf {α : Type} (device : device_t α) : Prop :=
  (device.framebuffer.length : Int) = device.height ∧
    ∀ row ∈ device.framebuffer, (row.length : Int) = device.width

/-! ## `device_pixel` -/

/-- Source, `mini3d.h` lines 178-182:
`if (((uint32_t)x) < (uint32_t)device->width && ((uint32_t)y) < (uint32_t)device->height)`
`device->framebuffer[y][x] = color;` -/
def device_pixel {α : Type} (device : device_t α) (x y : Int) (color : Nat) :
    Option (device_t α) :=
  if to_uint32 x < to_uint32 device.width ∧ to_uint32 y < to_uint32 device.height then
    match fb_store device.framebuffer y x color with
    | some fb => some { device with framebuffer := fb }
    | none => none
  else some device

/-- A device with zeroed transform and empty depth and texture buffers, of the
given size and framebuffer. -/
def device_of (width height : Int) (fb : List (List Nat)) : device_t ℚ :=
  { transform :=
      { world := ⟨fun _ _ => 0⟩, view := ⟨fun _ _ => 0⟩, projection := ⟨fun _ _ => 0⟩,
        transform := ⟨fun _ _ => 0⟩, w := 0, h := 0 },
    width := width, height := height, framebuffer := fb, zbuffer := [], texture := [],
    tex_width := 0, tex_height := 0, max_u := 0, max_v := 0, render_state := 1,
    background := 0, foreground := 0 }

/-! ## Math kernel -/

/-- Source, lines 13-15: `return (x < min) ? min : ((x > max) ? max : x);` -/
def CMID (x min max : Int) : Int :=
  if x < min then min else (if x > max then max else x)

/-- Source, lines 18-20: `return x1 + (x2 - x1) * t;` -/
def interp {α : Type} [Add α] [Sub α] [Mul α] (x1 x2 t : α) : α :=
  x1 + (x2 - x1) * t

/-- Source, lines 23-26: `sq = v->x * v->x + v->y * v->y + v->z * v->z; return (float)sqrt(sq);`.
The library function `sqrt` of `math.h` is the parameter `sqrt`. -/
def vector_length {α : Type} [Add α] [Mul α] (sqrt : α → α) (v : vector_t α) : α :=
  let sq := v.x * v.x + v.y * v.y + v.z * v.z
  sqrt sq

/-- Source, lines 29-34: `z = x + y` on `x, y, z`, then `z->w = 1.0`. -/
def vector_add {α : Type} [Add α] [One α] (x y : vector_t α) : vector_t α :=
  { x := x.x + y.x, y := x.y + y.y, z := x.z + y.z, w := 1 }

/-- Source, lines 37-42: `z = x - y` on `x, y, z`, then `z->w = 1.0`. -/
def vector_sub {α : Type} [Sub α] [One α] (x y : vector_t α) : vector_t α :=
  { x := x.x - y.x, y := x.y - y.y, z := x.z - y.z, w := 1 }

/-- Source, lines 45-47: `return x->x * y->x + x->y * y->y + x->z * y->z;` -/
def vector_dotproduct {α : Type} [Add α] [Mul α] (x y : vector_t α) : α :=
  x.x * y.x + x.y * y.y + x.z * y.z

/-- Source, lines 50-59: the three minors `m1, m2, m3`, then `z->w = 1.0f`. -/
def vector_crossproduct {α : Type} [Sub α] [Mul α] [One α] (x y : vector_t α) : vector_t α :=
  let m1 := x.y * y.z - x.z * y.y
  let m2 := x.z * y.x - x.x * y.z
  let m3 := x.x * y.y - x.y * y.x
  { x := m1, y := m2, z := m3, w := 1 }

/-- Source, lines 62-67: `interp` on `x, y, z`, then `z->w = 1.0f`. -/
def vector_interp {α : Type} [Add α] [Sub α] [Mul α] [One α] (x1 x2 : vector_t α) (t : α) :
    vector_t α :=
  { x := interp x1.x x2.x t, y := interp x1.y x2.y t, z := interp x1.z x2.z t, w := 1 }

/-- Modelled from the spec: the body of `matrix_apply`, which the header only declares
(line 75).  Spec 4.1: `matrix_apply(y, x, m) → y = x · m` (row-vector convention), the
fourth component of the result being the homogeneous `w`. -/
def matrix_apply {α : Type} [Add α] [Mul α] (x : vector_t α) (m : matrix_t α) : vector_t α :=
  { x := x.x * m.m 0 0 + x.y * m.m 1 0 + x.z * m.m 2 0 + x.w * m.m 3 0,
    y := x.x * m.m 0 1 + x.y * m.m 1 1 + x.z * m.m 2 1 + x.w * m.m 3 1,
    z := x.x * m.m 0 2 + x.y * m.m 1 2 + x.z * m.m 2 2 + x.w * m.m 3 2,
    w := x.x * m.m 0 3 + x.y * m.m 1 3 + x.z * m.m 2 3 + x.w * m.m 3 3 }

/-! ## Transform stage -/

/-- Source, lines 102-104: `matrix_apply(y, x, &ts->transform);` -/
def transform_apply {α : Type} [Add α] [Mul α] (ts : transform_t α) (x : vector_t α) :
    vector_t α :=
  matrix_apply x ts.transform

/-! ## Vertices -/

/-- Source: `typedef struct { float r, g, b; } color_t;` -/
structure color_t (α : Type) where
  r : α
  g : α
  b : α
  deriving DecidableEq, Repr

/-- Source: `typedef struct { float u, v; } texcoord_t;` -/
structure texcoord_t (α : Type) where
  u : α
  v : α
  deriving DecidableEq, Repr

/-- Source: `typedef struct { point_t pos; texcoord_t tc; color_t color; float rhw; } vertex_t;` -/
structure vertex_t (α : Type) where
  pos : point_t α
  tc : texcoord_t α
  color : color_t α
  rhw : α
  deriving DecidableEq, Repr

/-- Modelled from the spec: the body of `vertex_interp`, which the header only declares
(line 127).  Spec 4.3: linear interpolate pos (xyz), tc, color, and rhw between `a` and
`b` with parameter `t`; the position goes through `vector_interp` (source, lines 62-67),
every other field through `interp` (source, lines 18-20). -/
def vertex_interp {α : Type} [Add α] [Sub α] [Mul α] [One α] (x1 x2 : vertex_t α) (t : α) :
    vertex_t α :=
  { pos := vector_interp x1.pos x2.pos t,
    tc := { u := interp x1.tc.u x2.tc.u t, v := interp x1.tc.v x2.tc.v t },
    color := { r := interp x1.color.r x2.color.r t,
               g := interp x1.color.g x2.color.g t,
               b := interp x1.color.b x2.color.b t },
    rhw := interp x1.rhw x2.rhw t }

/-! ## Render state -/

/-- Source: `#define RENDER_STATE_WIREFRAME 1` -/
def RENDER_STATE_WIREFRAME : Nat := 1

/-- Source: `#define RENDER_STATE_TEXTURE 2` -/
def RENDER_STATE_TEXTURE : Nat := 2

/-- Source: `#define RENDER_STATE_COLOR 4` -/
def RENDER_STATE_COLOR : Nat := 4

/-- Source: `#define RENDER_STATE_CCW_CULLING 8` -/
def RENDER_STATE_CCW_CULLING : Nat := 8

/-- The four render-state constants of the header. -/
def render_state_bits : List Nat :=
  [RENDER_STATE_WIREFRAME, RENDER_STATE_TEXTURE, RENDER_STATE_COLOR, RENDER_STATE_CCW_CULLING]

/-- The mask obtained by OR-ing the members of `S`, as in `a | b | c`. -/
def render_state_mask (S : List Nat) : Nat :=
  S.foldl (fun acc bit => acc ||| bit) 0

/-! ## Binary32 arithmetic -/

/-- The values of the C type `float` as IEEE 754 binary32: not-a-number, the two
infinities, and the finite values `m * 2 ^ e` in their unique binary32 form: either
`|m| < 2 ^ 23` with `e = -149` (zero and the subnormal values), or
`2 ^ 23 ≤ |m| < 2 ^ 24` with `-149 ≤ e ≤ 104` (the normal values).  The two zeros of
binary32, which compare equal in C, are one value here. -/
inductive float32 where
  | nan : float32
  | infinity (neg : Bool) : float32
  | finite (m : Int) (e : Int) : float32
  deriving DecidableEq, Repr

namespace float32

/-- The number of binary digits of `n`, by halving at most `fuel` times: `bit_length n n`
is the position of the leading one bit of `n` counted from 1, and 0 for `n = 0`. -/
def bit_length : Nat → Nat → Nat
  | 0, _ => 0
  | fuel + 1, n => if n = 0 then 0 else bit_length fuel (n / 2) + 1

/-- Rounding of the exact value `m * 2 ^ e` to binary32, to nearest with ties to even:
the result keeps at most 24 significant bits at an exponent of at least `-149`; a result
of magnitude `2 ^ 128` or more is an infinity. -/
def round (m e : Int) : float32 :=
  if m = 0 then finite 0 (-149)
  else
    let n := m.natAbs
    let e1 := max (e + (bit_length n n : Int) - 24) (-149)
    let s := (e1 - e).toNat
    let num := n * 2 ^ (e - e1).toNat
    let q := num / 2 ^ s
    let r := num % 2 ^ s
    let q1 := if s = 0 then q
      else if 2 ^ (s - 1) < r ∨ (r = 2 ^ (s - 1) ∧ q % 2 = 1) then q + 1 else q
    let m2 := if q1 = 16777216 then 8388608 else q1
    let e2 := if q1 = 16777216 then e1 + 1 else e1
    if 104 < e2 then infinity (decide (m < 0))
    else finite (if m < 0 then -(m2 : Int) else (m2 : Int)) e2

/-- Binary32 addition: the exact sum, rounded; the sum of opposite infinities is
not-a-number. -/
def add : float32 → float32 → float32
  | nan, _ => nan
  | _, nan => nan
  | infinity s, infinity t => if s = t then infinity s else nan
  | infinity s, finite _ _ => infinity s
  | finite _ _, infinity t => infinity t
  | finite m1 e1, finite m2 e2 =>
    round (m1 * 2 ^ (e1 - min e1 e2).toNat + m2 * 2 ^ (e2 - min e1 e2).toNat) (min e1 e2)

/-- Binary32 negation. -/
def neg : float32 → float32
  | nan => nan
  | infinity s => infinity (!s)
  | finite m e => finite (-m) e

/-- Binary32 subtraction: addition of the negated second operand. -/
def sub (a b : float32) : float32 := add a (neg b)

/-- Binary32 multiplication: the exact product, rounded; infinity times zero is
not-a-number. -/
def mul : float32 → float32 → float32
  | nan, _ => nan
  | _, nan => nan
  | infinity s, infinity t => infinity (xor s t)
  | infinity s, finite m _ => if m = 0 then nan else infinity (xor s (decide (m < 0)))
  | finite m _, infinity t => if m = 0 then nan else infinity (xor (decide (m < 0)) t)
  | finite m1 e1, finite m2 e2 => round (m1 * m2) (e1 + e2)

/-- The finite values. -/
def is_finite : float32 → Prop
  | finite _ _ => True
  | _ => False

/-- The binary32 form of a value: a finite `m * 2 ^ e` is zero or subnormal
(`|m| < 2 ^ 23`, `e = -149`) or normal (`2 ^ 23 ≤ |m| < 2 ^ 24`, `-149 ≤ e ≤ 104`). -/
def is_binary32 : float32 → Prop
  | finite m e =>
    (m.natAbs < 8388608 ∧ e = -149) ∨
      (8388608 ≤ m.natAbs ∧ m.natAbs < 16777216 ∧ -149 ≤ e ∧ e ≤ 104)
  | _ => True

instance : (x : float32) → Decidable (is_finite x)
  | finite _ _ => isTrue trivial
  | nan => isFalse (fun h => h)
  | infinity _ => isFalse (fun h => h)

instance : (x : float32) → Decidable (is_binary32 x)
  | finite m e =>
    inferInstanceAs (Decidable ((m.natAbs < 8388608 ∧ e = -149) ∨
      (8388608 ≤ m.natAbs ∧ m.natAbs < 16777216 ∧ -149 ≤ e ∧ e ≤ 104)))
  | nan => isTrue trivial
  | infinity _ => isTrue trivial

instance : Add float32 := ⟨add⟩

instance : Sub float32 := ⟨sub⟩

instance : Mul float32 := ⟨mul⟩

instance : Zero float32 := ⟨finite 0 (-149)⟩

instance : One float32 := ⟨finite 8388608 (-23)⟩

/-- The condition under which `interp x1 x2 0` involves no overflow: `x1` is a finite
binary32 value and the difference `x2 - x1` is finite. -/
def finite_step (x1 x2 : float32) : Prop :=
  is_binary32 x1 ∧ is_finite x1 ∧ is_finite (x2 - x1)

instance (x1 x2 : float32) : Decidable (finite_step x1 x2) := by
  unfold finite_step; exact inferInstance

end float32

/-- A vertex over binary32 with position `(0, 0, 0, 1)`, zero texture coordinates and
colour, and the given `rhw`. -/
def vertex_rhw (rhw : float32) : vertex_t float32 :=
  { pos := ⟨0, 0, 0, 1⟩, tc := ⟨0, 0⟩, color := ⟨0, 0, 0⟩, rhw := rhw }

/-! ## Clip test -/

/-- Modelled from the spec: the body of `transform_check_cvv`, which the header only
declares (lines 109-110).  Spec 4.2: returns zero iff `−w ≤ x ≤ w`, `−w ≤ y ≤ w`,
`0 ≤ z ≤ w`; otherwise sets bits indicating which half-space(s) were violated.  One bit
per violated half-space; the spec fixes no bit values, the six bits here are
`1, 2, 4, 8, 16, 32`. -/
def transform_check_cvv {α : Type} [LT α] [∀ a b : α, Decidable (a < b)] [Neg α] [Zero α]
    (v : vector_t α) : Nat :=
  let w := v.w
  (if v.z < 0 then 1 else 0) ||| (if w < v.z then 2 else 0) |||
  (if v.x < -w then 4 else 0) ||| (if w < v.x then 8 else 0) |||
  (if v.y < -w then 16 else 0) ||| (if w < v.y then 32 else 0)

/-! ## Triangle to trapezoids -/

/-- Modelled from the spec: step 1 of `trapezoid_init_triangle` (spec 4.3), sort the
three vertices by screen-space Y ascending, as three compare-and-swap steps; the result
is `(t, m, b)`. -/
def sort_by_y {α : Type} [LT α] [∀ a b : α, Decidable (a < b)] (p1 p2 p3 : vertex_t α) :
    vertex_t α × vertex_t α × vertex_t α :=
  let s12 := if p2.pos.y < p1.pos.y then (p2, p1) else (p1, p2)
  let s13 := if p3.pos.y < s12.1.pos.y then (p3, s12.1) else (s12.1, p3)
  let s23 := if s13.2.pos.y < s12.2.pos.y then (s13.2, s12.2) else (s12.2, s13.2)
  (s13.1, s23.1, s23.2)

/-- Modelled from the spec: the return value of `trapezoid_init_triangle`, which the
header only declares (lines 131-133).  Spec 4.3, steps 1-6: sort by Y into `(t, m, b)`;
if `t.y == m.y == b.y` or `t.x == m.x == b.x` return 0; if `t.y == m.y` (flat top) or
`m.y == b.y` (flat bottom) one trapezoid; otherwise split at `m.y` into two.  The
contents written to the output array are not part of this definition. -/
def trapezoid_init_triangle {α : Type} [LT α] [∀ a b : α, Decidable (a < b)] [DecidableEq α]
    (p1 p2 p3 : vertex_t α) : Nat :=
  let t := (sort_by_y p1 p2 p3).1
  let m := (sort_by_y p1 p2 p3).2.1
  let b := (sort_by_y p1 p2 p3).2.2
  if (t.pos.y = m.pos.y ∧ m.pos.y = b.pos.y) ∨ (t.pos.x = m.pos.x ∧ m.pos.x = b.pos.x) then 0
  else if t.pos.y = m.pos.y then 1
  else if m.pos.y = b.pos.y then 1
  else 2

/-- A vertex at screen position `(x, y)`, every other field zero. -/
def vertex_at (x y : ℤ) : vertex_t ℤ :=
  { pos := ⟨x, y, 0, 1⟩, tc := ⟨0, 0⟩, color := ⟨0, 0, 0⟩, rhw := 1 }

/-! # Theorems -/

/-! ## Framebuffer lemmas -/

/-- On the non-negative `int` range the cast to `uint32_t` keeps the value. -/
theorem to_uint32_of_nonneg (v : Int) (h0 : 0 ≤ v) (h1 : v ≤ INT_MAX) :
    (to_uint32 v : Int) = v := by
  unfold to_uint32 INT_MAX at *
  omega

/-- A negative `int` wraps to a value of at least `2 ^ 31`. -/
theorem to_uint32_of_neg (v : Int) (h0 : INT_MIN ≤ v) (h1 : v < 0) :
    (to_uint32 v : Int) = v + 4294967296 := by
  unfold to_uint32 INT_MIN at *
  omega

/-- The unsigned comparison against a non-negative bound is the two-sided range test. -/
theorem uint32_lt_iff (v bound : Int) (hv : is_int v) (h0 : 0 ≤ bound)
    (h1 : bound ≤ INT_MAX) : to_uint32 v < to_uint32 bound ↔ 0 ≤ v ∧ v < bound := by
  have hb := to_uint32_of_nonneg bound h0 h1
  obtain ⟨hlo, hhi⟩ := hv
  by_cases hneg : v < 0
  · have hv := to_uint32_of_neg v hlo hneg
    unfold INT_MAX INT_MIN at *
    omega
  · have hv := to_uint32_of_nonneg v (by omega) hhi
    unfold INT_MAX INT_MIN at *
    omega

/-- A store that succeeds changes the addressed cell and no other. -/
theorem fb_load_store (fb fb' : List (List Nat)) (y x : Int) (c : Nat)
    (h : fb_store fb y x c = some fb') (i j : Int) :
    fb_load fb' i j = if i = y ∧ j = x then some c else fb_load fb i j := by
  unfold fb_store at h
  split at h
  next hyx =>
    obtain ⟨hy, hx⟩ := hyx
    split at h
    next row hrow =>
      split at h
      next hlen =>
        injection h with h
        subst h
        have hylen : y.toNat < fb.length := by
          rcases Nat.lt_or_ge y.toNat fb.length with hlt | hge
          · exact hlt
          · rw [List.getElem?_eq_none hge] at hrow; cases hrow
        unfold fb_load
        by_cases hij : 0 ≤ i ∧ 0 ≤ j
        · obtain ⟨hi, hj⟩ := hij
          simp only [hi, hj, and_self, if_true]
          by_cases hiy : i = y
          · subst hiy
            simp only [true_and, List.getElem?_set_self hylen, hrow]
            by_cases hjx : j = x
            · subst hjx
              simp [List.getElem?_set_self hlen]
            · have hne : x.toNat ≠ j.toNat := by omega
              simp [hjx, List.getElem?_set_ne hne]
          · have hne : y.toNat ≠ i.toNat := by omega
            simp [hiy, List.getElem?_set_ne hne]
        · have hne : ¬ (i = y ∧ j = x) := by
            rintro ⟨rfl, rfl⟩; exact hij ⟨hy, hx⟩
          simp [hij, hne]
      next => cases h
    next => cases h
  next => cases h

/-- A store into a cell that exists succeeds. -/
theorem fb_store_isSome (fb : List (List Nat)) (y x : Int) (c : Nat) (row : List Nat)
    (hy : 0 ≤ y) (hx : 0 ≤ x) (hrow : fb[y.toNat]? = some row) (hlen : x.toNat < row.length) :
    fb_store fb y x c = some (fb.set y.toNat (row.set x.toNat c)) := by
  unfold fb_store
  simp [hy, hx, hrow, hlen]

/-- When the guard of `device_pixel` fails the device is returned as it was. -/
theorem device_pixel_of_not_guard {α : Type} (d : device_t α) (x y : Int) (c : Nat)
    (h : ¬ (to_uint32 x < to_uint32 d.width ∧ to_uint32 y < to_uint32 d.height)) :
    device_pixel d x y c = some d := by
  unfold device_pixel
  rw [if_neg h]

/-- When the guard of `device_pixel` holds the result is the store into `framebuffer[y][x]`. -/
theorem device_pixel_of_guard {α : Type} (d : device_t α) (x y : Int) (c : Nat)
    (h : to_uint32 x < to_uint32 d.width ∧ to_uint32 y < to_uint32 d.height) :
    device_pixel d x y c =
      (fb_store d.framebuffer y x c).map fun fb => { d with framebuffer := fb } := by
  unfold device_pixel
  rw [if_pos h]
  cases fb_store d.framebuffer y x c <;> rfl

/-- In a framebuffer of `height` rows of `width` cells every in-range cell exists. -/
theorem fb_wf_cell {α : Type} (d : device_t α) (hwf : fb_wf d) (x y : Int)
    (hx0 : 0 ≤ x) (hx1 : x < d.width) (hy0 : 0 ≤ y) (hy1 : y < d.height) :
    ∃ row, d.framebuffer[y.toNat]? = some row ∧ x.toNat < row.length := by
  obtain ⟨hrows, hcols⟩ := hwf
  have hy : y.toNat < d.framebuffer.length := by omega
  refine ⟨d.framebuffer[y.toNat], List.getElem?_eq_getElem hy, ?_⟩
  have := hcols _ (List.getElem_mem hy)
  omega

/-! ## C1: `device_pixel` and the bounds of the framebuffer -/

/-- C1, as stated, fails: the claim quantifies over any `int` width and height, and on a
device whose `width` and `height` are `-1` the casts make both bounds `4294967295`, so
`device_pixel(device, 0, 0, 7)` passes the test and stores into `framebuffer[0][0]`, a
cell outside the (empty) range `[0, -1) x [0, -1)`. -/
theorem device_pixel_negative_size_counterexample :
    is_int (device_of (-1) (-1) [[0]]).width ∧ is_int (device_of (-1) (-1) [[0]]).height ∧
    ¬ (0 ≤ (0 : Int) ∧ (0 : Int) < (device_of (-1) (-1) [[0]]).width) ∧
    (device_of (-1) (-1) [[0]]).framebuffer = [[0]] ∧
    ((device_pixel (device_of (-1) (-1) [[0]]) 0 0 7).map fun d => d.framebuffer)
      = some [[7]] ∧
    fb_load [[7]] 0 0 ≠ fb_load [[0]] 0 0 := by
  decide

/-- C1, amended: on a device whose `width` and `height` are non-negative `int`s, for all
`int`s `x`, `y` and every colour `c`: if `(x, y)` is outside `[0, width) x [0, height)` the
call returns the device as it was; whenever the call returns, every cell outside that
range reads as before; and on a framebuffer of `height` rows of `width` cells the call
does return. -/
theorem device_pixel_writes_in_bounds {α : Type} (d : device_t α) (x y : Int) (c : Nat)
    (hw0 : 0 ≤ d.width) (hw1 : d.width ≤ INT_MAX)
    (hh0 : 0 ≤ d.height) (hh1 : d.height ≤ INT_MAX)
    (hx : is_int x) (hy : is_int y) :
    (¬ (0 ≤ x ∧ x < d.width ∧ 0 ≤ y ∧ y < d.height) → device_pixel d x y c = some d) ∧
    (∀ d', device_pixel d x y c = some d' →
      ∀ i j : Int, ¬ (0 ≤ j ∧ j < d.width ∧ 0 ≤ i ∧ i < d.height) →
        fb_load d'.framebuffer i j = fb_load d.framebuffer i j) ∧
    (fb_wf d → (device_pixel d x y c).isSome = true) := by
  have gx := uint32_lt_iff x d.width hx hw0 hw1
  have gy := uint32_lt_iff y d.height hy hh0 hh1
  refine ⟨?_, ?_, ?_⟩
  · intro hout
    apply device_pixel_of_not_guard
    rw [gx, gy]
    tauto
  · intro d' hd' i j hij
    by_cases hg : to_uint32 x < to_uint32 d.width ∧ to_uint32 y < to_uint32 d.height
    · rw [device_pixel_of_guard d x y c hg] at hd'
      cases hst : fb_store d.framebuffer y x c with
      | none => rw [hst] at hd'; cases hd'
      | some fb =>
        rw [hst] at hd'
        injection hd' with hd'
        subst hd'
        rw [gx, gy] at hg
        have hne : ¬ (i = y ∧ j = x) := by
          rintro ⟨rfl, rfl⟩
          exact hij ⟨hg.1.1, hg.1.2, hg.2.1, hg.2.2⟩
        show fb_load fb i j = _
        rw [fb_load_store _ _ y x c hst i j, if_neg hne]
    · rw [device_pixel_of_not_guard d x y c hg] at hd'
      injection hd' with hd'
      subst hd'
      rfl
  · intro hwf
    by_cases hg : to_uint32 x < to_uint32 d.width ∧ to_uint32 y < to_uint32 d.height
    · rw [device_pixel_of_guard d x y c hg]
      rw [gx, gy] at hg
      obtain ⟨row, hrow, hlen⟩ := fb_wf_cell d hwf x y hg.1.1 hg.1.2 hg.2.1 hg.2.2
      rw [fb_store_isSome _ y x c row hg.2.1 hg.1.1 hrow hlen]
      rfl
    · rw [device_pixel_of_not_guard d x y c hg]
      rfl

/-- Witness for C1 (amended): a 2 x 2 device and the out-of-range write `(-1, 0)`. -/
theorem device_pixel_writes_in_bounds_witness :
    (0 ≤ (device_of 2 2 [[0, 0], [0, 0]]).width ∧
      (device_of 2 2 [[0, 0], [0, 0]]).width ≤ INT_MAX ∧
      0 ≤ (device_of 2 2 [[0, 0], [0, 0]]).height ∧
      (device_of 2 2 [[0, 0], [0, 0]]).height ≤ INT_MAX ∧ is_int (-1) ∧ is_int 0) ∧
    device_pixel (device_of 2 2 [[0, 0], [0, 0]]) (-1) 0 7
      = some (device_of 2 2 [[0, 0], [0, 0]]) :=
  ⟨by decide,
    (device_pixel_writes_in_bounds (device_of 2 2 [[0, 0], [0, 0]]) (-1) 0 7
      (by decide) (by decide) (by decide) (by decide) (by decide) (by decide)).1
      (by decide)⟩

/-! ## C2: an in-range `device_pixel` overwrites one cell -/

/-- C2: on a device whose framebuffer has `height` rows of `width` cells, for
`0 <= x < width` and `0 <= y < height` the call returns a device in which
`framebuffer[y][x]` reads `c`, every other cell reads as before, the framebuffer keeps
its shape, and every other field (z-buffer, texture, sizes, render state, colours,
transform) is unchanged; the resulting framebuffer is the same whatever the z-buffer
holds. -/
theorem device_pixel_overwrites {α : Type} (d : device_t α) (x y : Int) (c : Nat)
    (hwf : fb_wf d) (hw : d.width ≤ INT_MAX) (hh : d.height ≤ INT_MAX)
    (hx0 : 0 ≤ x) (hx1 : x < d.width) (hy0 : 0 ≤ y) (hy1 : y < d.height) :
    ∃ d', device_pixel d x y c = some d' ∧
      fb_load d'.framebuffer y x = some c ∧
      (∀ i j : Int, ¬ (i = y ∧ j = x) →
        fb_load d'.framebuffer i j = fb_load d.framebuffer i j) ∧
      fb_wf d' ∧
      d'.zbuffer = d.zbuffer ∧ d'.texture = d.texture ∧
      d'.width = d.width ∧ d'.height = d.height ∧
      d'.tex_width = d.tex_width ∧ d'.tex_height = d.tex_height ∧
      d'.max_u = d.max_u ∧ d'.max_v = d.max_v ∧
      d'.render_state = d.render_state ∧
      d'.background = d.background ∧ d'.foreground = d.foreground ∧
      d'.transform = d.transform ∧
      (∀ zb : List (List α),
        ((device_pixel { d with zbuffer := zb } x y c).map fun e => e.framebuffer)
          = some d'.framebuffer) := by
  have hxi : is_int x := by unfold is_int INT_MIN; unfold INT_MAX at *; omega
  have hyi : is_int y := by unfold is_int INT_MIN; unfold INT_MAX at *; omega
  have hg : to_uint32 x < to_uint32 d.width ∧ to_uint32 y < to_uint32 d.height := by
    rw [uint32_lt_iff x d.width hxi (by omega) hw, uint32_lt_iff y d.height hyi (by omega) hh]
    exact ⟨⟨hx0, hx1⟩, ⟨hy0, hy1⟩⟩
  obtain ⟨row, hrow, hlen⟩ := fb_wf_cell d hwf x y hx0 hx1 hy0 hy1
  have hst := fb_store_isSome d.framebuffer y x c row hy0 hx0 hrow hlen
  refine ⟨{ d with framebuffer := d.framebuffer.set y.toNat (row.set x.toNat c) }, ?_, ?_, ?_,
    ?_, rfl, rfl, rfl, rfl, rfl, rfl, rfl, rfl, rfl, rfl, rfl, rfl, ?_⟩
  · rw [device_pixel_of_guard d x y c hg, hst]
    rfl
  · show fb_load (d.framebuffer.set y.toNat (row.set x.toNat c)) y x = some c
    rw [fb_load_store _ _ y x c hst y x]
    simp
  · intro i j hij
    show fb_load (d.framebuffer.set y.toNat (row.set x.toNat c)) i j = _
    rw [fb_load_store _ _ y x c hst i j, if_neg hij]
  · obtain ⟨hrows, hcols⟩ := hwf
    refine ⟨?_, ?_⟩
    · show ((d.framebuffer.set y.toNat (row.set x.toNat c)).length : Int) = d.height
      rw [List.length_set]
      exact hrows
    · intro r hr
      show (r.length : Int) = d.width
      rcases List.mem_or_eq_of_mem_set hr with hmem | heq
      · exact hcols r hmem
      · rw [heq, List.length_set]
        exact hcols row (List.getElem?_mem hrow)
  · intro zb
    have hg' : to_uint32 x < to_uint32 ({ d with zbuffer := zb } : device_t α).width ∧
        to_uint32 y < to_uint32 ({ d with zbuffer := zb } : device_t α).height := hg
    rw [device_pixel_of_guard _ x y c hg']
    show Option.map _ (Option.map _ (fb_store d.framebuffer y x c)) = _
    rw [hst]
    rfl

/-- Witness for C2: the write `(1, 0)` on a 2 x 2 device. -/
theorem device_pixel_overwrites_witness :
    ∃ d', device_pixel (device_of 2 2 [[0, 0], [0, 0]]) 1 0 7 = some d' ∧
      fb_load d'.framebuffer 0 1 = some 7 ∧
      (∀ i j : Int, ¬ (i = 0 ∧ j = 1) →
        fb_load d'.framebuffer i j = fb_load (device_of 2 2 [[0, 0], [0, 0]]).framebuffer i j) := by
  obtain ⟨d', h1, h2, h3, _⟩ :=
    device_pixel_overwrites (device_of 2 2 [[0, 0], [0, 0]]) 1 0 7
      (by unfold fb_wf; decide) (by decide) (by decide) (by decide) (by decide)
      (by decide) (by decide)
  exact ⟨d', h1, h2, h3⟩

/-! ## Interpolation lemmas -/

/-- In exact arithmetic `interp x1 x2 0` is the first endpoint. -/
theorem interp_zero {α : Type} [Ring α] (x1 x2 : α) : interp x1 x2 0 = x1 := by
  unfold interp
  rw [mul_zero, add_zero]

/-- In exact arithmetic `interp x1 x2 1` is the second endpoint. -/
theorem interp_one {α : Type} [Ring α] (x1 x2 : α) : interp x1 x2 1 = x2 := by
  unfold interp
  rw [mul_one, add_sub_cancel]

/-! ## Binary32 lemmas -/

/-- With enough fuel `bit_length` is the binary size of its argument. -/
theorem bit_length_eq_size (fuel n : Nat) (h : n ≤ fuel) :
    float32.bit_length fuel n = Nat.size n := by
  induction fuel generalizing n with
  | zero =>
    have : n = 0 := by omega
    subst this
    simp [float32.bit_length]
  | succ fuel ih =>
    unfold float32.bit_length
    by_cases hn : n = 0
    · subst hn
      simp
    · rw [if_neg hn, ih (n / 2) (by omega)]
      apply le_antisymm
      · cases hs : Nat.size (n / 2) with
        | zero =>
          have : 0 < Nat.size n := Nat.size_pos.mpr (by omega)
          omega
        | succ s0 =>
          have h1 : s0 < Nat.size (n / 2) := by omega
          rw [Nat.lt_size] at h1
          have h2 : s0 + 1 < Nat.size n := by
            rw [Nat.lt_size, pow_succ]
            omega
          omega
      · rw [Nat.size_le, pow_succ]
        have := Nat.lt_size_self (n / 2)
        omega

/-- Rounding leaves a binary32 value as it is: the value `m * 2 ^ e`, written at the
exponent `-149`, rounds to `finite m e`. -/
theorem float32_round_binary32 (m e : Int) (h : float32.is_binary32 (float32.finite m e)) :
    float32.round (m * 2 ^ (e + 149).toNat) (-149) = float32.finite m e := by
  by_cases hm : m = 0
  · subst hm
    have he : e = -149 := by
      rcases h with h | h
      · exact h.2
      · have := h.1
        simp at this
    subst he
    simp [float32.round]
  · have hpow : (2 : Int) ^ (e + 149).toNat ≠ 0 := pow_ne_zero _ (by norm_num)
    have hne : m * 2 ^ (e + 149).toNat ≠ 0 := mul_ne_zero hm hpow
    have habs : (m * 2 ^ (e + 149).toNat).natAbs = m.natAbs * 2 ^ (e + 149).toNat := by
      rw [Int.natAbs_mul, Int.natAbs_pow]
      rfl
    have hsize : Nat.size (m.natAbs * 2 ^ (e + 149).toNat) =
        Nat.size m.natAbs + (e + 149).toNat := by
      rw [← Nat.shiftLeft_eq]
      exact Nat.size_shiftLeft (by omega) _
    have hsign : (m * 2 ^ (e + 149).toNat < 0) ↔ m < 0 := by
      have hp : (0 : Int) < 2 ^ (e + 149).toNat := pow_pos (by norm_num) _
      constructor
      · intro hlt
        by_contra hge
        have : 0 ≤ m * 2 ^ (e + 149).toNat := mul_nonneg (by omega) (le_of_lt hp)
        omega
      · intro hlt
        exact mul_neg_of_neg_of_pos hlt hp
    unfold float32.round
    rw [if_neg hne]
    simp only [habs, bit_length_eq_size _ _ (le_refl _), hsize, hsign]
    have hA : m.natAbs < 16777216 := by
      rcases h with h | h
      · have := h.1
        omega
      · exact h.2.1
    have he : -149 ≤ e ∧ e ≤ 104 := by
      rcases h with h | h
      · have := h.2
        omega
      · exact ⟨h.2.2.1, h.2.2.2⟩
    have he1 : max (-149 + ((m.natAbs.size + (e + 149).toNat : Nat) : Int) - 24) (-149) = e := by
      rcases h with h | h
      · have h1 : m.natAbs.size ≤ 23 := Nat.size_le.mpr (by have := h.1; omega)
        have h2 := h.2
        omega
      · have h1 : m.natAbs.size ≤ 24 := Nat.size_le.mpr h.2.1
        have h2 : 23 < m.natAbs.size := Nat.lt_size.mpr h.1
        omega
    have hs : (e - -149).toNat = (e + 149).toNat := by omega
    have hup : (-149 - e).toNat = 0 := by omega
    have hpos : 0 < 2 ^ (e + 149).toNat := pow_pos (by norm_num) _
    have hq : m.natAbs * 2 ^ (e + 149).toNat * 2 ^ 0 / 2 ^ (e + 149).toNat = m.natAbs := by
      rw [pow_zero, Nat.mul_one, Nat.mul_div_cancel _ hpos]
    have hr : m.natAbs * 2 ^ (e + 149).toNat * 2 ^ 0 % 2 ^ (e + 149).toNat = 0 := by
      rw [pow_zero, Nat.mul_one, Nat.mul_mod_left]
    have hhalf : ¬ (2 ^ ((e + 149).toNat - 1) < 0 ∨
        (0 = 2 ^ ((e + 149).toNat - 1) ∧ m.natAbs % 2 = 1)) := by
      have : 0 < 2 ^ ((e + 149).toNat - 1) := pow_pos (by norm_num) _
      omega
    have h24 : ¬ m.natAbs = 16777216 := by omega
    have h104 : ¬ 104 < e := by omega
    simp only [he1, hs, hup, hq, hr, if_neg hhalf, ite_self, h24, h104, if_false]
    congr 1
    by_cases hneg : m < 0
    · rw [if_pos hneg]
      omega
    · rw [if_neg hneg]
      omega

/-- In binary32, `interp x1 x2 0` is `x1` whenever `x1` is finite and `x2 - x1` does not
overflow. -/
theorem float32_interp_zero (x1 x2 : float32) (h : float32.finite_step x1 x2) :
    interp x1 x2 0 = x1 := by
  obtain ⟨hb, hf, hd⟩ := h
  cases x1 with
  | nan => exact absurd hf (fun h => h)
  | infinity s => exact absurd hf (fun h => h)
  | finite m e =>
    have he : -149 ≤ e := by
      rcases hb with hb | hb
      · have := hb.2
        omega
      · exact hb.2.2.1
    show float32.add (float32.finite m e)
      (float32.mul (x2 - float32.finite m e) (float32.finite 0 (-149))) = float32.finite m e
    cases hsub : x2 - float32.finite m e with
    | nan => rw [hsub] at hd; exact absurd hd (fun h => h)
    | infinity s => rw [hsub] at hd; exact absurd hd (fun h => h)
    | finite m1 e1 =>
      have hmul : float32.mul (float32.finite m1 e1) (float32.finite 0 (-149)) =
          float32.finite 0 (-149) := by
        simp [float32.mul, float32.round]
      rw [hmul]
      have hmin : min e (-149) = -149 := min_eq_right he
      have hk : (e - -149).toNat = (e + 149).toNat := by omega
      show float32.round (m * 2 ^ (e - min e (-149)).toNat +
        0 * 2 ^ (-149 - min e (-149)).toNat) (min e (-149)) = float32.finite m e
      rw [hmin, hk, zero_mul, add_zero]
      exact float32_round_binary32 m e hb

/-! ## C3: `vertex_interp` at the two ends -/

/-- C4: for all vectors `a`, `b` and every `t`, whatever the scalar operations are, each
of `x, y, z` of `vector_interp(z, a, b, t)` is `a_i + (b_i - a_i) * t` and `w` is `1`, the
result being the same whatever `a.w` and `b.w` are; in exact arithmetic (scalars in a
ring) the `x, y, z` at `t = 0` are those of `a` and at `t = 1` those of `b`. -/
theorem vector_interp_spec {α : Type} [Add α] [Sub α] [Mul α] [One α]
    (a b : vector_t α) (t : α) :
    (vector_interp a b t).x = a.x + (b.x - a.x) * t ∧
    (vector_interp a b t).y = a.y + (b.y - a.y) * t ∧
    (vector_interp a b t).z = a.z + (b.z - a.z) * t ∧
    (vector_interp a b t).w = 1 ∧
    (∀ wa wb : α,
      vector_interp { a with w := wa } { b with w := wb } t = vector_interp a b t) ∧
    (∀ (β : Type) [Ring β] (p q : vector_t β),
      ((vector_interp p q 0).x = p.x ∧ (vector_interp p q 0).y = p.y ∧
        (vector_interp p q 0).z = p.z) ∧
      ((vector_interp p q 1).x = q.x ∧ (vector_interp p q 1).y = q.y ∧
        (vector_interp p q 1).z = q.z)) := by
  refine ⟨rfl, rfl, rfl, rfl, fun _ _ => rfl, fun β _ p q => ⟨⟨?_, ?_, ?_⟩, ⟨?_, ?_, ?_⟩⟩⟩ <;>
    simp only [vector_interp, interp_zero, interp_one]

/-! ## C5: `vector_crossproduct` -/

/-- C5: for all vectors `x` and `y`, whatever the scalar operations are,
`vector_crossproduct(z, x, y)` is
`(x.y*y.z - x.z*y.y, x.z*y.x - x.x*y.z, x.x*y.y - x.y*y.x, 1)`, the same whatever `x.w`
and `y.w` are; and (scalars in a ring) the cross of the unit X axis with the unit Y axis
is the unit Z axis. -/
theorem vector_crossproduct_spec {α : Type} [Sub α] [Mul α] [One α] (x y : vector_t α) :
    vector_crossproduct x y =
      ⟨x.y * y.z - x.z * y.y, x.z * y.x - x.x * y.z, x.x * y.y - x.y * y.x, 1⟩ ∧
    (∀ wx wy : α,
      vector_crossproduct { x with w := wx } { y with w := wy } = vector_crossproduct x y) ∧
    (∀ (β : Type) [Ring β] (wx wy : β),
      vector_crossproduct (⟨1, 0, 0, wx⟩ : vector_t β) ⟨0, 1, 0, wy⟩ = ⟨0, 0, 1, 1⟩) := by
  refine ⟨rfl, fun _ _ => rfl, fun β _ _ _ => ?_⟩
  simp [vector_crossproduct]

/-! ## C6: `vector_add` and `vector_sub` -/

/-- C6: for all vectors `x` and `y`, whatever the scalar operations are,
`vector_add(z, x, y)` is `(x.x+y.x, x.y+y.y, x.z+y.z, 1)` and `vector_sub(z, x, y)` is
`(x.x-y.x, x.y-y.y, x.z-y.z, 1)`; the results are the same whatever the inputs' `w`
are, and the output `w` is not computed from them: for rational inputs with `w = 1` the
sum of the `w`s is `2` and their difference `0`, the output `w` is `1`. -/
theorem vector_add_sub_spec {α : Type} [Add α] [Sub α] [One α] (x y : vector_t α) :
    vector_add x y = ⟨x.x + y.x, x.y + y.y, x.z + y.z, 1⟩ ∧
    vector_sub x y = ⟨x.x - y.x, x.y - y.y, x.z - y.z, 1⟩ ∧
    (∀ wx wy : α, vector_add { x with w := wx } { y with w := wy } = vector_add x y) ∧
    (∀ wx wy : α, vector_sub { x with w := wx } { y with w := wy } = vector_sub x y) ∧
    ((vector_add (⟨0, 0, 0, 1⟩ : vector_t ℚ) ⟨0, 0, 0, 1⟩).w
        ≠ (⟨0, 0, 0, 1⟩ : vector_t ℚ).w + (⟨0, 0, 0, 1⟩ : vector_t ℚ).w ∧
      (vector_sub (⟨0, 0, 0, 1⟩ : vector_t ℚ) ⟨0, 0, 0, 1⟩).w
        ≠ (⟨0, 0, 0, 1⟩ : vector_t ℚ).w - (⟨0, 0, 0, 1⟩ : vector_t ℚ).w) := by
  refine ⟨rfl, rfl, fun _ _ => rfl, fun _ _ => rfl, ?_, ?_⟩ <;>
    norm_num [vector_add, vector_sub]

/-! ## C7: `vector_dotproduct` -/

/-- C7: for all vectors `x` and `y`, whatever the scalar operations are,
`vector_dotproduct(x, y)` is `x.x*y.x + x.y*y.y + x.z*y.z`; changing `x.w` or `y.w` does
not change it; and, the product of two scalars being commutative, it is symmetric in
its arguments. -/
theorem vector_dotproduct_spec {α : Type} [Add α] [Mul α] (x y : vector_t α) :
    vector_dotproduct x y = x.x * y.x + x.y * y.y + x.z * y.z ∧
    (∀ wx wy : α,
      vector_dotproduct { x with w := wx } { y with w := wy } = vector_dotproduct x y) ∧
    (∀ (β : Type) [Add β] [CommMagma β] (p q : vector_t β),
      vector_dotproduct p q = vector_dotproduct q p) := by
  refine ⟨rfl, fun _ _ => rfl, fun β _ _ p q => ?_⟩
  unfold vector_dotproduct
  rw [mul_comm p.x, mul_comm p.y, mul_comm p.z]

/-! ## C8: `vector_length` -/

/-- C8: over the reals, with `sqrt` the real square root, `vector_length(v)` is
`sqrt(v.x^2 + v.y^2 + v.z^2)`, does not depend on `v.w`, is non-negative, and is zero
exactly when `v.x = v.y = v.z = 0`. -/
theorem vector_length_spec (v : vector_t ℝ) :
    vector_length Real.sqrt v = Real.sqrt (v.x ^ 2 + v.y ^ 2 + v.z ^ 2) ∧
    (∀ w : ℝ, vector_length Real.sqrt { v with w := w } = vector_length Real.sqrt v) ∧
    0 ≤ vector_length Real.sqrt v ∧
    (vector_length Real.sqrt v = 0 ↔ v.x = 0 ∧ v.y = 0 ∧ v.z = 0) := by
  have hsq : 0 ≤ v.x * v.x + v.y * v.y + v.z * v.z :=
    add_nonneg (add_nonneg (mul_self_nonneg v.x) (mul_self_nonneg v.y)) (mul_self_nonneg v.z)
  refine ⟨?_, fun _ => rfl, Real.sqrt_nonneg _, ?_⟩
  · unfold vector_length
    simp only [pow_two]
  · unfold vector_length
    simp only
    rw [Real.sqrt_eq_zero hsq]
    constructor
    · intro h
      have h0x := mul_self_nonneg v.x
      have h0y := mul_self_nonneg v.y
      have h0z := mul_self_nonneg v.z
      have hx : v.x * v.x = 0 := by linarith
      have hy : v.y * v.y = 0 := by linarith
      have hz : v.z * v.z = 0 := by linarith
      exact ⟨mul_self_eq_zero.mp hx, mul_self_eq_zero.mp hy, mul_self_eq_zero.mp hz⟩
    · rintro ⟨hx, hy, hz⟩
      rw [hx, hy, hz]
      ring

/-! ## C9: `transform_apply` -/

/-- C9: for every transform state and vector `x`, `transform_apply(ts, y, x)` is
`matrix_apply(y, x, ts.transform)`, the row vector `x` times the cached matrix; two
states with the same `transform` give the same output whatever their world, view,
projection, `w` and `h` are. -/
theorem transform_apply_spec {α : Type} [Add α] [Mul α]
    (world view projection transform world' view' projection' : matrix_t α)
    (w h w' h' : α) (x : vector_t α) :
    transform_apply ⟨world, view, projection, transform, w, h⟩ x = matrix_apply x transform ∧
    transform_apply ⟨world, view, projection, transform, w, h⟩ x =
      ⟨x.x * transform.m 0 0 + x.y * transform.m 1 0 + x.z * transform.m 2 0
          + x.w * transform.m 3 0,
        x.x * transform.m 0 1 + x.y * transform.m 1 1 + x.z * transform.m 2 1
          + x.w * transform.m 3 1,
        x.x * transform.m 0 2 + x.y * transform.m 1 2 + x.z * transform.m 2 2
          + x.w * transform.m 3 2,
        x.x * transform.m 0 3 + x.y * transform.m 1 3 + x.z * transform.m 2 3
          + x.w * transform.m 3 3⟩ ∧
    transform_apply ⟨world, view, projection, transform, w, h⟩ x =
      transform_apply ⟨world', view', projection', transform, w', h'⟩ x :=
  ⟨rfl, rfl, rfl⟩

/-! ## C10: the render-state constants -/

/-- A bitwise OR is zero exactly when both operands are. -/
theorem lor_eq_zero_iff (a b : Nat) : a ||| b = 0 ↔ a = 0 ∧ b = 0 := by
  constructor
  · intro h
    have hbit : ∀ i, (a.testBit i || b.testBit i) = false := by
      intro i
      rw [← Nat.testBit_or, h, Nat.zero_testBit]
    constructor
    · apply Nat.eq_of_testBit_eq
      intro i
      have := hbit i
      rw [Bool.or_eq_false_iff] at this
      rw [this.1, Nat.zero_testBit]
    · apply Nat.eq_of_testBit_eq
      intro i
      have := hbit i
      rw [Bool.or_eq_false_iff] at this
      rw [this.2, Nat.zero_testBit]
  · rintro ⟨rfl, rfl⟩
    rfl

/-- Two render-state constants share a bit exactly when they are the same constant. -/
theorem render_state_bit_and (a b : Nat) (ha : a ∈ render_state_bits)
    (hb : b ∈ render_state_bits) : a &&& b ≠ 0 ↔ b = a := by
  simp only [render_state_bits, RENDER_STATE_WIREFRAME, RENDER_STATE_TEXTURE,
    RENDER_STATE_COLOR, RENDER_STATE_CCW_CULLING, List.mem_cons, List.mem_singleton,
    List.not_mem_nil, or_false] at ha hb
  rcases ha with rfl | rfl | rfl | rfl <;> rcases hb with rfl | rfl | rfl | rfl <;> decide

/-- Testing a bit of an OR-fold: the bit is in the start value or among the folded
constants. -/
theorem render_state_foldl_and (S : List Nat) (hS : ∀ b ∈ S, b ∈ render_state_bits)
    (bit : Nat) (hbit : bit ∈ render_state_bits) (acc : Nat) :
    S.foldl (fun acc bit => acc ||| bit) acc &&& bit ≠ 0 ↔ (acc &&& bit ≠ 0 ∨ bit ∈ S) := by
  induction S generalizing acc with
  | nil => simp
  | cons s S ih =>
    have hs : s ∈ render_state_bits := hS s (List.mem_cons_self s S)
    have hS' : ∀ b ∈ S, b ∈ render_state_bits := fun b hb => hS b (List.mem_cons_of_mem s hb)
    rw [List.foldl_cons, ih hS' (acc ||| s), Nat.and_distrib_right, List.mem_cons]
    have hsb := render_state_bit_and s bit hs hbit
    rw [Ne, lor_eq_zero_iff, not_and_or]
    tauto

/-- C10: the render-state constants are 1, 2, 4 and 8; any two distinct constants have
bitwise AND 0; and for every collection `S` of the four, the mask obtained by OR-ing
the members of `S` has `(mask & bit) != 0` exactly for the constants `bit` in `S`. -/
theorem render_state_bits_orthogonal (S : List Nat) (hS : ∀ b ∈ S, b ∈ render_state_bits)
    (bit : Nat) (hbit : bit ∈ render_state_bits) :
    (RENDER_STATE_WIREFRAME = 1 ∧ RENDER_STATE_TEXTURE = 2 ∧ RENDER_STATE_COLOR = 4 ∧
      RENDER_STATE_CCW_CULLING = 8) ∧
    (∀ a ∈ render_state_bits, ∀ b ∈ render_state_bits, a ≠ b → a &&& b = 0) ∧
    (render_state_mask S &&& bit ≠ 0 ↔ bit ∈ S) := by
  refine ⟨⟨rfl, rfl, rfl, rfl⟩, ?_, ?_⟩
  · intro a ha b hb hab
    by_contra hne
    exact hab ((render_state_bit_and a b ha hb).mp hne).symm
  · unfold render_state_mask
    rw [render_state_foldl_and S hS bit hbit 0]
    simp

/-- Witness for C10: the mask `WIREFRAME | COLOR` is 5; it has the `COLOR` bit. -/
theorem render_state_bits_orthogonal_witness :
    render_state_mask [RENDER_STATE_WIREFRAME, RENDER_STATE_COLOR] = 5 ∧
    (render_state_mask [RENDER_STATE_WIREFRAME, RENDER_STATE_COLOR] &&& RENDER_STATE_COLOR ≠ 0
      ↔ RENDER_STATE_COLOR ∈ [RENDER_STATE_WIREFRAME, RENDER_STATE_COLOR]) :=
  ⟨by decide,
    (render_state_bits_orthogonal [RENDER_STATE_WIREFRAME, RENDER_STATE_COLOR]
      (by decide) RENDER_STATE_COLOR (by decide)).2.2⟩

/-! ## C11: the clip test -/

/-- C11: in exact arithmetic (scalars in a linearly ordered ring), for every vector `v`,
`transform_check_cvv(v)` is 0 if and only if `-v.w <= v.x <= v.w`, `-v.w <= v.y <= v.w`
and `0 <= v.z <= v.w`, and it is nonzero for every other `v`. -/
theorem transform_check_cvv_spec {α : Type} [LinearOrderedRing α] (v : vector_t α) :
    (transform_check_cvv v = 0 ↔
      (-v.w ≤ v.x ∧ v.x ≤ v.w) ∧ (-v.w ≤ v.y ∧ v.y ≤ v.w) ∧ (0 ≤ v.z ∧ v.z ≤ v.w)) ∧
    (¬ ((-v.w ≤ v.x ∧ v.x ≤ v.w) ∧ (-v.w ≤ v.y ∧ v.y ≤ v.w) ∧ (0 ≤ v.z ∧ v.z ≤ v.w)) →
      transform_check_cvv v ≠ 0) := by
  have key : transform_check_cvv v = 0 ↔
      (-v.w ≤ v.x ∧ v.x ≤ v.w) ∧ (-v.w ≤ v.y ∧ v.y ≤ v.w) ∧ (0 ≤ v.z ∧ v.z ≤ v.w) := by
    unfold transform_check_cvv
    simp only [lor_eq_zero_iff, ite_eq_right_iff, OfNat.ofNat_ne_zero, one_ne_zero, imp_false,
      not_lt]
    tauto
  exact ⟨key, fun h hz => h (key.mp hz)⟩

/-! ## C12: the number of trapezoids of a triangle -/

/-- The three compare-and-swap steps return one of the six orders of the inputs, sorted
by `y`. -/
theorem sort_by_y_cases {α : Type} [LinearOrderedField α] (p1 p2 p3 : vertex_t α) :
    ∃ t m b : vertex_t α, sort_by_y p1 p2 p3 = (t, m, b) ∧
      t.pos.y ≤ m.pos.y ∧ m.pos.y ≤ b.pos.y ∧
      ((t = p1 ∧ m = p2 ∧ b = p3) ∨ (t = p1 ∧ m = p3 ∧ b = p2) ∨
       (t = p2 ∧ m = p1 ∧ b = p3) ∨ (t = p2 ∧ m = p3 ∧ b = p1) ∨
       (t = p3 ∧ m = p1 ∧ b = p2) ∨ (t = p3 ∧ m = p2 ∧ b = p1)) := by
  unfold sort_by_y
  by_cases h12 : p2.pos.y < p1.pos.y
  · by_cases h13 : p3.pos.y < p2.pos.y
    · refine ⟨p3, p2, p1, ?_, le_of_lt h13, le_of_lt h12,
        Or.inr (Or.inr (Or.inr (Or.inr (Or.inr ⟨rfl, rfl, rfl⟩))))⟩
      simp only [h12, h13, if_true]
    · by_cases h23 : p3.pos.y < p1.pos.y
      · refine ⟨p2, p3, p1, ?_, not_lt.mp h13, le_of_lt h23,
          Or.inr (Or.inr (Or.inr (Or.inl ⟨rfl, rfl, rfl⟩)))⟩
        simp only [h12, h13, h23, if_true, if_false]
      · refine ⟨p2, p1, p3, ?_, le_of_lt h12, not_lt.mp h23,
          Or.inr (Or.inr (Or.inl ⟨rfl, rfl, rfl⟩))⟩
        simp only [h12, h13, h23, if_true, if_false]
  · by_cases h13 : p3.pos.y < p1.pos.y
    · by_cases h21 : p1.pos.y < p2.pos.y
      · refine ⟨p3, p1, p2, ?_, le_of_lt h13, le_of_lt h21,
          Or.inr (Or.inr (Or.inr (Or.inr (Or.inl ⟨rfl, rfl, rfl⟩))))⟩
        simp only [h12, h13, h21, if_true, if_false]
      · refine ⟨p3, p2, p1, ?_, le_trans (le_of_lt h13) (not_lt.mp h12), not_lt.mp h21,
          Or.inr (Or.inr (Or.inr (Or.inr (Or.inr ⟨rfl, rfl, rfl⟩))))⟩
        simp only [h12, h13, h21, if_true, if_false]
    · by_cases h23 : p3.pos.y < p2.pos.y
      · refine ⟨p1, p3, p2, ?_, not_lt.mp h13, le_of_lt h23,
          Or.inr (Or.inl ⟨rfl, rfl, rfl⟩)⟩
        simp only [h12, h13, h23, if_true, if_false]
      · refine ⟨p1, p2, p3, ?_, not_lt.mp h12, not_lt.mp h23, Or.inl ⟨rfl, rfl, rfl⟩⟩
        simp only [h12, h13, h23, if_true, if_false]

/-- C12: in exact arithmetic, for every triple of vertices, with `(t, m, b)` the vertices
sorted by ascending `y` (a rearrangement of the three with `t.y <= m.y <= b.y`), the
count returned by `trapezoid_init_triangle` is at most 2; it is 0 exactly when
`t.y == b.y` or all three `x` are equal; it is 1 exactly when that is not so and two
vertices share a `y` value; and it is 2 exactly in the remaining case. -/
theorem trapezoid_init_triangle_count {α : Type} [LinearOrderedField α]
    (p1 p2 p3 : vertex_t α) :
    ((sort_by_y p1 p2 p3).1.pos.y ≤ (sort_by_y p1 p2 p3).2.1.pos.y ∧
      (sort_by_y p1 p2 p3).2.1.pos.y ≤ (sort_by_y p1 p2 p3).2.2.pos.y ∧
      [(sort_by_y p1 p2 p3).1, (sort_by_y p1 p2 p3).2.1, (sort_by_y p1 p2 p3).2.2].Perm
        [p1, p2, p3]) ∧
    trapezoid_init_triangle p1 p2 p3 ≤ 2 ∧
    (trapezoid_init_triangle p1 p2 p3 = 0 ↔
      ((sort_by_y p1 p2 p3).1.pos.y = (sort_by_y p1 p2 p3).2.2.pos.y ∨
        (p1.pos.x = p2.pos.x ∧ p2.pos.x = p3.pos.x))) ∧
    (trapezoid_init_triangle p1 p2 p3 = 1 ↔
      ¬ ((sort_by_y p1 p2 p3).1.pos.y = (sort_by_y p1 p2 p3).2.2.pos.y ∨
        (p1.pos.x = p2.pos.x ∧ p2.pos.x = p3.pos.x)) ∧
      (p1.pos.y = p2.pos.y ∨ p1.pos.y = p3.pos.y ∨ p2.pos.y = p3.pos.y)) ∧
    (trapezoid_init_triangle p1 p2 p3 = 2 ↔
      ¬ ((sort_by_y p1 p2 p3).1.pos.y = (sort_by_y p1 p2 p3).2.2.pos.y ∨
        (p1.pos.x = p2.pos.x ∧ p2.pos.x = p3.pos.x)) ∧
      ¬ (p1.pos.y = p2.pos.y ∨ p1.pos.y = p3.pos.y ∨ p2.pos.y = p3.pos.y)) := by
  obtain ⟨t, m, b, hs, htm, hmb, hperm⟩ := sort_by_y_cases p1 p2 p3
  unfold trapezoid_init_triangle
  rw [hs]
  simp only
  have hP : [t, m, b].Perm [p1, p2, p3] := by
    rcases hperm with h | h | h | h | h | h <;> obtain ⟨ht, hm, hb⟩ := h <;> subst ht hm hb
    · exact List.Perm.refl _
    · exact List.Perm.cons _ (List.Perm.swap _ _ _)
    · exact List.Perm.swap _ _ _
    · exact (List.Perm.cons _ (List.Perm.swap _ _ _)).trans (List.Perm.swap _ _ _)
    · exact (List.Perm.swap _ _ _).trans (List.Perm.cons _ (List.Perm.swap _ _ _))
    · exact ((List.Perm.swap _ _ _).trans (List.Perm.cons _ (List.Perm.swap _ _ _))).trans
        (List.Perm.swap _ _ _)
  have hx : (t.pos.x = m.pos.x ∧ m.pos.x = b.pos.x) ↔
      (p1.pos.x = p2.pos.x ∧ p2.pos.x = p3.pos.x) := by
    rcases hperm with h | h | h | h | h | h <;> obtain ⟨ht, hm, hb⟩ := h <;> subst ht hm hb <;>
    constructor <;> rintro ⟨h1, h2⟩ <;> constructor <;> simp_all
  have hy : (t.pos.y = m.pos.y ∧ m.pos.y = b.pos.y) ↔ t.pos.y = b.pos.y := by
    constructor
    · rintro ⟨h1, h2⟩; exact h1.trans h2
    · intro h; exact ⟨le_antisymm htm (h ▸ hmb), le_antisymm hmb (h ▸ htm)⟩
  have hshare : (t.pos.y = m.pos.y ∨ m.pos.y = b.pos.y) ↔
      (p1.pos.y = p2.pos.y ∨ p1.pos.y = p3.pos.y ∨ p2.pos.y = p3.pos.y) := by
    have hsym : (t.pos.y = m.pos.y ∨ t.pos.y = b.pos.y ∨ m.pos.y = b.pos.y) ↔
        (p1.pos.y = p2.pos.y ∨ p1.pos.y = p3.pos.y ∨ p2.pos.y = p3.pos.y) := by
      rcases hperm with h | h | h | h | h | h <;> obtain ⟨ht, hm, hb⟩ := h <;>
        subst ht hm hb <;>
      constructor <;> intro h <;> rcases h with h | h | h <;> simp [h]
    rw [← hsym]
    constructor
    · rintro (h | h)
      · exact Or.inl h
      · exact Or.inr (Or.inr h)
    · rintro (h | h | h)
      · exact Or.inl h
      · exact Or.inl (hy.mpr h).1
      · exact Or.inr h
  rw [← hx, ← hshare, ← hy]
  refine ⟨⟨htm, hmb, hP⟩, ?_, ?_, ?_, ?_⟩
  · split_ifs <;> omega
  · split_ifs <;> simp_all
  · split_ifs <;> simp_all
  · split_ifs <;> simp_all

/-- The count on four concrete triangles: general, flat top, vertical line, horizontal
line. -/
theorem trapezoid_init_triangle_examples :
    trapezoid_init_triangle (vertex_at 0 3) (vertex_at 1 1) (vertex_at 2 2) = 2 ∧
    trapezoid_init_triangle (vertex_at 0 1) (vertex_at 1 1) (vertex_at 2 2) = 1 ∧
    trapezoid_init_triangle (vertex_at 0 1) (vertex_at 0 1) (vertex_at 0 2) = 0 ∧
    trapezoid_init_triangle (vertex_at 0 1) (vertex_at 1 1) (vertex_at 2 1) = 0 := by
  decide

/-! ## C13: the unsigned bounds test of `device_pixel` -/

/-- C13: on a device with `0 <= width <= INT_MAX` and `0 <= height <= INT_MAX`, for all
`int`s `x` and `y`, the test `(uint32_t)x < (uint32_t)width && (uint32_t)y <
(uint32_t)height` holds if and only if `0 <= x < width` and `0 <= y < height`; a negative
`x` or `y` casts to a value of at least `2 ^ 31` and fails the test; and `device_pixel`
branches on exactly the signed range test. -/
theorem device_pixel_guard_iff {α : Type} (d : device_t α) (x y : Int)
    (hw0 : 0 ≤ d.width) (hw1 : d.width ≤ INT_MAX)
    (hh0 : 0 ≤ d.height) (hh1 : d.height ≤ INT_MAX)
    (hx : is_int x) (hy : is_int y) :
    ((to_uint32 x < to_uint32 d.width ∧ to_uint32 y < to_uint32 d.height) ↔
      (0 ≤ x ∧ x < d.width ∧ 0 ≤ y ∧ y < d.height)) ∧
    (x < 0 → 2147483648 ≤ to_uint32 x ∧ ¬ to_uint32 x < to_uint32 d.width) ∧
    (y < 0 → 2147483648 ≤ to_uint32 y ∧ ¬ to_uint32 y < to_uint32 d.height) ∧
    (∀ c : Nat, device_pixel d x y c =
      if 0 ≤ x ∧ x < d.width ∧ 0 ≤ y ∧ y < d.height then
        (fb_store d.framebuffer y x c).map fun fb => { d with framebuffer := fb }
      else some d) := by
  have gx := uint32_lt_iff x d.width hx hw0 hw1
  have gy := uint32_lt_iff y d.height hy hh0 hh1
  have hiff : (to_uint32 x < to_uint32 d.width ∧ to_uint32 y < to_uint32 d.height) ↔
      (0 ≤ x ∧ x < d.width ∧ 0 ≤ y ∧ y < d.height) := by
    rw [gx, gy]
    tauto
  refine ⟨hiff, ?_, ?_, ?_⟩
  · intro hneg
    have hcast := to_uint32_of_neg x hx.1 hneg
    have hlo := hx.1
    unfold INT_MIN at hlo
    refine ⟨by omega, ?_⟩
    rw [gx]
    omega
  · intro hneg
    have hcast := to_uint32_of_neg y hy.1 hneg
    have hlo := hy.1
    unfold INT_MIN at hlo
    refine ⟨by omega, ?_⟩
    rw [gy]
    omega
  · intro c
    by_cases hg : to_uint32 x < to_uint32 d.width ∧ to_uint32 y < to_uint32 d.height
    · rw [device_pixel_of_guard d x y c hg, if_pos (hiff.mp hg)]
    · rw [device_pixel_of_not_guard d x y c hg, if_neg (fun h => hg (hiff.mpr h))]

/-- Witness for C13: on a 2 x 2 device `x = -1` casts to `4294967295` and is rejected. -/
theorem device_pixel_guard_iff_witness :
    (0 ≤ (device_of 2 2 [[0, 0], [0, 0]]).width ∧
      (device_of 2 2 [[0, 0], [0, 0]]).width ≤ INT_MAX ∧
      0 ≤ (device_of 2 2 [[0, 0], [0, 0]]).height ∧
      (device_of 2 2 [[0, 0], [0, 0]]).height ≤ INT_MAX ∧ is_int (-1) ∧ is_int 0) ∧
    to_uint32 (-1) = 4294967295 ∧
    (2147483648 ≤ to_uint32 (-1) ∧
      ¬ to_uint32 (-1) < to_uint32 (device_of 2 2 [[0, 0], [0, 0]]).width) :=
  ⟨by decide, by decide,
    (device_pixel_guard_iff (device_of 2 2 [[0, 0], [0, 0]]) (-1) 0
      (by decide) (by decide) (by decide) (by decide) (by decide) (by decide)).2.1
      (by decide)⟩

/-! ## C14: `interp` stays between its endpoints -/

/-- C14: in exact arithmetic (scalars in a linearly ordered field, the reals in
particular), for all `x1`, `x2` and every `t` with `0 <= t <= 1`,
`min(x1, x2) <= interp(x1, x2, t) <= max(x1, x2)`, `interp(x1, x2, 0) = x1` and
`interp(x1, x2, 1) = x2`; hence each of `x, y, z` of `vector_interp` lies between the
corresponding components of its two inputs. -/
theorem interp_between {α : Type} [LinearOrderedField α] (x1 x2 t : α)
    (h0 : 0 ≤ t) (h1 : t ≤ 1) :
    (min x1 x2 ≤ interp x1 x2 t ∧ interp x1 x2 t ≤ max x1 x2) ∧
    interp x1 x2 0 = x1 ∧ interp x1 x2 1 = x2 ∧
    (∀ a b : vector_t α,
      (min a.x b.x ≤ (vector_interp a b t).x ∧ (vector_interp a b t).x ≤ max a.x b.x) ∧
      (min a.y b.y ≤ (vector_interp a b t).y ∧ (vector_interp a b t).y ≤ max a.y b.y) ∧
      (min a.z b.z ≤ (vector_interp a b t).z ∧ (vector_interp a b t).z ≤ max a.z b.z)) := by
  have key : ∀ u v : α, min u v ≤ interp u v t ∧ interp u v t ≤ max u v := by
    intro u v
    unfold interp
    rcases le_total u v with h | h
    · rw [min_eq_left h, max_eq_right h]
      constructor <;>
        nlinarith [mul_nonneg (sub_nonneg.2 h) h0, mul_nonneg (sub_nonneg.2 h) (sub_nonneg.2 h1)]
    · rw [min_eq_right h, max_eq_left h]
      constructor <;>
        nlinarith [mul_nonneg (sub_nonneg.2 h) h0, mul_nonneg (sub_nonneg.2 h) (sub_nonneg.2 h1)]
  exact ⟨key x1 x2, interp_zero x1 x2, interp_one x1 x2,
    fun a b => ⟨key a.x b.x, key a.y b.y, key a.z b.z⟩⟩

/-- Witness for C14: over the reals, `interp(0, 2, 1/2)` lies between 0 and 2. -/
theorem interp_between_witness :
    ((0 : ℝ) ≤ 1 / 2 ∧ (1 / 2 : ℝ) ≤ 1) ∧
    (min (0 : ℝ) 2 ≤ interp (0 : ℝ) 2 (1 / 2) ∧ interp (0 : ℝ) 2 (1 / 2) ≤ max (0 : ℝ) 2) :=
  ⟨⟨by norm_num, by norm_num⟩,
    (interp_between (0 : ℝ) 2 (1 / 2) (by norm_num) (by norm_num)).1⟩

/-! ## C15: `CMID` is the clamp -/

/-- C15: for all ints `x`, `min`, `max` with `min <= max`, `CMID(x, min, max)` lies in
`[min, max]`, equals `x` whenever `min <= x <= max`, is monotone non-decreasing in `x`,
and is idempotent. -/
theorem CMID_clamp (x min max : Int) (h : min ≤ max) :
    (min ≤ CMID x min max ∧ CMID x min max ≤ max) ∧
    (min ≤ x ∧ x ≤ max → CMID x min max = x) ∧
    (∀ x' : Int, x ≤ x' → CMID x min max ≤ CMID x' min max) ∧
    CMID (CMID x min max) min max = CMID x min max := by
  unfold CMID
  refine ⟨?_, ?_, ?_, ?_⟩
  · split_ifs <;> omega
  · intro hx; split_ifs <;> omega
  · intro x' hx; split_ifs <;> omega
  · split_ifs <;> omega

/-- Witness for C15: `CMID(5, 0, 3)` is 3. -/
theorem CMID_clamp_witness :
    (0 : Int) ≤ 3 ∧ CMID 5 0 3 = 3 ∧ ((0 : Int) ≤ CMID 5 0 3 ∧ CMID 5 0 3 ≤ 3) :=
  ⟨by decide, by decide, (CMID_clamp 5 0 3 (by decide)).1⟩

/-! ## C16: the cross product is perpendicular and anti-commutative -/

/-- C16: in exact arithmetic (scalars in a commutative ring, the reals in particular),
for all vectors `x` and `y` the result `z` of `vector_crossproduct(z, x, y)` has
`vector_dotproduct(x, z) = 0` and `vector_dotproduct(y, z) = 0`, and swapping the
arguments negates `x, y, z` of the result while `w` stays 1. -/
theorem vector_crossproduct_perp {α : Type} [CommRing α] (x y : vector_t α) :
    vector_dotproduct x (vector_crossproduct x y) = 0 ∧
    vector_dotproduct y (vector_crossproduct x y) = 0 ∧
    (vector_crossproduct y x).x = -(vector_crossproduct x y).x ∧
    (vector_crossproduct y x).y = -(vector_crossproduct x y).y ∧
    (vector_crossproduct y x).z = -(vector_crossproduct x y).z ∧
    (vector_crossproduct y x).w = 1 ∧ (vector_crossproduct x y).w = 1 := by
  refine ⟨?_, ?_, ?_, ?_, ?_, rfl, rfl⟩ <;>
    simp only [vector_dotproduct, vector_crossproduct] <;> ring

/-! ## C17: `device_pixel` is last-writer-wins and commutes on distinct pixels -/

/-- A store succeeds exactly when the addressed cell exists, and then replaces it. -/
theorem fb_store_eq_ite (fb : List (List Nat)) (y x : Int) (c : Nat) :
    fb_store fb y x c =
      if 0 ≤ y ∧ 0 ≤ x ∧ y.toNat < fb.length ∧ x.toNat < (fb[y.toNat]?.getD []).length then
        some (fb.set y.toNat ((fb[y.toNat]?.getD []).set x.toNat c))
      else none := by
  unfold fb_store
  by_cases hyx : 0 ≤ y ∧ 0 ≤ x
  · rw [if_pos hyx]
    obtain ⟨hy, hx⟩ := hyx
    cases hrow : fb[y.toNat]? with
    | none =>
      have hlen : ¬ y.toNat < fb.length := by
        intro hlt
        rw [List.getElem?_eq_getElem hlt] at hrow
        cases hrow
      simp [hlen]
    | some row =>
      have hlen : y.toNat < fb.length := by
        rcases Nat.lt_or_ge y.toNat fb.length with hlt | hge
        · exact hlt
        · rw [List.getElem?_eq_none hge] at hrow; cases hrow
      simp [hy, hx, hlen]
  · rw [if_neg hyx, if_neg]
    intro h
    exact hyx ⟨h.1, h.2.1⟩

/-- A store keeps the length of every row. -/
theorem fb_row_length_set (fb : List (List Nat)) (i j k : Nat) (c : Nat) :
    (((fb.set i ((fb[i]?.getD []).set k c))[j]?).getD []).length = (fb[j]?.getD []).length := by
  rw [List.getElem?_set]
  by_cases hij : i = j
  · subst hij
    by_cases hlen : i < fb.length
    · simp [hlen]
    · have : fb[i]? = none := List.getElem?_eq_none (Nat.le_of_not_lt hlen)
      simp [hlen, this]
  · simp [hij]

/-- Two stores into the same cell: the second value stays. -/
theorem fb_store_store_same (fb : List (List Nat)) (y x : Int) (c1 c2 : Nat) :
    (fb_store fb y x c1).bind (fun f => fb_store f y x c2) = fb_store fb y x c2 := by
  rw [fb_store_eq_ite fb y x c1, fb_store_eq_ite fb y x c2]
  by_cases h : 0 ≤ y ∧ 0 ≤ x ∧ y.toNat < fb.length ∧ x.toNat < (fb[y.toNat]?.getD []).length
  · rw [if_pos h, if_pos h, Option.some_bind, fb_store_eq_ite]
    have h' : 0 ≤ y ∧ 0 ≤ x ∧
        y.toNat < (fb.set y.toNat ((fb[y.toNat]?.getD []).set x.toNat c1)).length ∧
        x.toNat < (((fb.set y.toNat ((fb[y.toNat]?.getD []).set x.toNat c1))[y.toNat]?).getD
          []).length := by
      rw [fb_row_length_set, List.length_set]
      exact h
    rw [if_pos h']
    congr 1
    rw [List.getElem?_set_self h.2.2.1, Option.getD_some, List.set_set, List.set_set]
  · rw [if_neg h, if_neg h]
    rfl

/-- Two stores into different cells give the same framebuffer in either order. -/
theorem fb_store_comm (fb : List (List Nat)) (y1 x1 y2 x2 : Int) (c1 c2 : Nat)
    (hne : ¬ (y1 = y2 ∧ x1 = x2)) :
    (fb_store fb y1 x1 c1).bind (fun f => fb_store f y2 x2 c2) =
      (fb_store fb y2 x2 c2).bind (fun f => fb_store f y1 x1 c1) := by
  have step : ∀ (ya xa yb xb : Int) (ca cb : Nat),
      fb_store (fb.set ya.toNat ((fb[ya.toNat]?.getD []).set xa.toNat ca)) yb xb cb =
        if 0 ≤ yb ∧ 0 ≤ xb ∧ yb.toNat < fb.length ∧ xb.toNat < (fb[yb.toNat]?.getD []).length then
          some ((fb.set ya.toNat ((fb[ya.toNat]?.getD []).set xa.toNat ca)).set yb.toNat
            ((((fb.set ya.toNat ((fb[ya.toNat]?.getD []).set xa.toNat ca))[yb.toNat]?).getD
              []).set xb.toNat cb))
        else none := by
    intro ya xa yb xb ca cb
    rw [fb_store_eq_ite, fb_row_length_set, List.length_set]
  rw [fb_store_eq_ite fb y1 x1 c1, fb_store_eq_ite fb y2 x2 c2]
  by_cases h1 : 0 ≤ y1 ∧ 0 ≤ x1 ∧ y1.toNat < fb.length ∧
      x1.toNat < (fb[y1.toNat]?.getD []).length
  · by_cases h2 : 0 ≤ y2 ∧ 0 ≤ x2 ∧ y2.toNat < fb.length ∧
        x2.toNat < (fb[y2.toNat]?.getD []).length
    · rw [if_pos h1, if_pos h2, Option.some_bind, Option.some_bind,
        step y1 x1 y2 x2 c1 c2, step y2 x2 y1 x1 c2 c1, if_pos h1, if_pos h2]
      congr 1
      by_cases hy : y1.toNat = y2.toNat
      · have hyy : y1 = y2 := by omega
        have hx : x1.toNat ≠ x2.toNat := by
          intro hx
          apply hne
          exact ⟨hyy, by omega⟩
        subst hyy
        simp only [List.getElem?_set_self h1.2.2.1, Option.getD_some, List.set_set]
        rw [List.set_comm _ _ _ hx]
      · have hy' : y2.toNat ≠ y1.toNat := fun h => hy h.symm
        rw [List.getElem?_set_ne hy, List.getElem?_set_ne hy', List.set_comm _ _ _ hy]
    · rw [if_pos h1, if_neg h2, Option.some_bind, step y1 x1 y2 x2 c1 c2, if_neg h2]
      rfl
  · by_cases h2 : 0 ≤ y2 ∧ 0 ≤ x2 ∧ y2.toNat < fb.length ∧
        x2.toNat < (fb[y2.toNat]?.getD []).length
    · rw [if_neg h1, if_pos h2, Option.some_bind, step y2 x2 y1 x1 c2 c1, if_neg h1]
      rfl
    · rw [if_neg h1, if_neg h2]
      rfl

/-- Two calls of `device_pixel` that both pass the bounds test are the two stores in
sequence. -/
theorem device_pixel_seq {α : Type} (d : device_t α) (x1 y1 x2 y2 : Int) (c1 c2 : Nat)
    (hg1 : to_uint32 x1 < to_uint32 d.width ∧ to_uint32 y1 < to_uint32 d.height)
    (hg2 : to_uint32 x2 < to_uint32 d.width ∧ to_uint32 y2 < to_uint32 d.height) :
    (device_pixel d x1 y1 c1).bind (fun e => device_pixel e x2 y2 c2) =
      ((fb_store d.framebuffer y1 x1 c1).bind (fun f => fb_store f y2 x2 c2)).map
        fun fb => { d with framebuffer := fb } := by
  rw [device_pixel_of_guard d x1 y1 c1 hg1]
  cases fb_store d.framebuffer y1 x1 c1 with
  | none => rfl
  | some f =>
    have hg2' : to_uint32 x2 < to_uint32 ({ d with framebuffer := f } : device_t α).width ∧
        to_uint32 y2 < to_uint32 ({ d with framebuffer := f } : device_t α).height := hg2
    show device_pixel { d with framebuffer := f } x2 y2 c2 = _
    rw [device_pixel_of_guard _ x2 y2 c2 hg2']
    show Option.map _ (fb_store f y2 x2 c2) = Option.map _ (fb_store f y2 x2 c2)
    cases fb_store f y2 x2 c2 <;> rfl

/-- A call of `device_pixel` that fails the bounds test, after one that passes it,
changes nothing more. -/
theorem device_pixel_then_rejected {α : Type} (d : device_t α) (x1 y1 x2 y2 : Int)
    (c1 c2 : Nat)
    (hg2 : ¬ (to_uint32 x2 < to_uint32 d.width ∧ to_uint32 y2 < to_uint32 d.height)) :
    (device_pixel d x1 y1 c1).bind (fun e => device_pixel e x2 y2 c2) =
      device_pixel d x1 y1 c1 := by
  by_cases hg1 : to_uint32 x1 < to_uint32 d.width ∧ to_uint32 y1 < to_uint32 d.height
  · rw [device_pixel_of_guard d x1 y1 c1 hg1]
    cases fb_store d.framebuffer y1 x1 c1 with
    | none => rfl
    | some f =>
      have hg2' : ¬ (to_uint32 x2 < to_uint32 ({ d with framebuffer := f } : device_t α).width ∧
          to_uint32 y2 < to_uint32 ({ d with framebuffer := f } : device_t α).height) := hg2
      show device_pixel { d with framebuffer := f } x2 y2 c2 = _
      rw [device_pixel_of_not_guard _ x2 y2 c2 hg2']
      rfl
  · rw [device_pixel_of_not_guard d x1 y1 c1 hg1, Option.some_bind,
      device_pixel_of_not_guard d x2 y2 c2 hg2]

/-- C17: for every device and all coordinates and colours, `device_pixel(x, y, c1)`
followed by `device_pixel(x, y, c2)` gives the same result as `device_pixel(x, y, c2)`
alone, and for `(x1, y1) != (x2, y2)` the calls `device_pixel(x1, y1, c1)` and
`device_pixel(x2, y2, c2)` give the same result in either order. -/
theorem device_pixel_last_writer_wins {α : Type} (d : device_t α)
    (x y x1 y1 x2 y2 : Int) (c1 c2 : Nat) :
    ((device_pixel d x y c1).bind (fun e => device_pixel e x y c2) = device_pixel d x y c2) ∧
    ((x1, y1) ≠ (x2, y2) →
      (device_pixel d x1 y1 c1).bind (fun e => device_pixel e x2 y2 c2) =
        (device_pixel d x2 y2 c2).bind (fun e => device_pixel e x1 y1 c1)) := by
  constructor
  · by_cases hg : to_uint32 x < to_uint32 d.width ∧ to_uint32 y < to_uint32 d.height
    · rw [device_pixel_seq d x y x y c1 c2 hg hg, fb_store_store_same,
        device_pixel_of_guard d x y c2 hg]
    · rw [device_pixel_then_rejected d x y x y c1 c2 hg, device_pixel_of_not_guard d x y c1 hg,
        device_pixel_of_not_guard d x y c2 hg]
  · intro hne
    have hne' : ¬ (y1 = y2 ∧ x1 = x2) := by
      rintro ⟨rfl, rfl⟩
      exact hne rfl
    have hne'' : ¬ (y2 = y1 ∧ x2 = x1) := fun h => hne' ⟨h.1.symm, h.2.symm⟩
    by_cases hg1 : to_uint32 x1 < to_uint32 d.width ∧ to_uint32 y1 < to_uint32 d.height
    · by_cases hg2 : to_uint32 x2 < to_uint32 d.width ∧ to_uint32 y2 < to_uint32 d.height
      · rw [device_pixel_seq d x1 y1 x2 y2 c1 c2 hg1 hg2,
          device_pixel_seq d x2 y2 x1 y1 c2 c1 hg2 hg1,
          fb_store_comm d.framebuffer y1 x1 y2 x2 c1 c2 hne']
      · rw [device_pixel_then_rejected d x1 y1 x2 y2 c1 c2 hg2,
          device_pixel_of_not_guard d x2 y2 c2 hg2, Option.some_bind]
    · rw [device_pixel_then_rejected d x2 y2 x1 y1 c2 c1 hg1,
        device_pixel_of_not_guard d x1 y1 c1 hg1, Option.some_bind]

/-- Witness for C17: on a 2 x 2 device the writes `(0, 0, 5)` and `(1, 0, 7)` commute,
and both orders end with the first row `[5, 7]`. -/
theorem device_pixel_last_writer_wins_witness :
    ((0 : Int), (0 : Int)) ≠ (1, 0) ∧
    (device_pixel (device_of 2 2 [[0, 0], [0, 0]]) 0 0 5).bind
        (fun e => device_pixel e 1 0 7) =
      (device_pixel (device_of 2 2 [[0, 0], [0, 0]]) 1 0 7).bind
        (fun e => device_pixel e 0 0 5) ∧
    (((device_pixel (device_of 2 2 [[0, 0], [0, 0]]) 1 0 7).bind
        (fun e => device_pixel e 0 0 5)).map fun e => e.framebuffer) =
      some [[5, 7], [0, 0]] :=
  ⟨by decide,
    (device_pixel_last_writer_wins (device_of 2 2 [[0, 0], [0, 0]]) 0 0 0 0 1 0 5 7).2
      (by decide),
    by decide⟩

end Mini3d
